import Mathlib

/-!
# rubinius JIT driver (`vm/llvm/jit_compiler.cpp`)

A shallow embedding of `rubinius::jit::Compiler`: the IR a compile unit holds,
the calls the driver makes on its collaborators (recorded in order as a list of
`Event`s), and the driver functions `function_pointer`, `generate_function`,
`compile`, `compile_block`, `compile_method` and `compile_builder`.

Pointers are natural numbers with `NULL = 0`; a pointer member that the driver
tests for null and then dereferences (`function_`, `mci_`) is an `Option` of the
object it points to.  The LLVM verifier, optimizer and execution engine and the
Builders are collaborators whose answers are arbitrary: they are fields of
`LLVMState`, so every theorem holds for all of them.
-/

namespace rubinius
namespace jit

/-! ## The IR the driver inspects -/

/-- An LLVM instruction, as far as the driver looks at it: whether it is a
terminator, and the basic blocks (by address) it has as operands. -/
structure Instruction where
  isTerminator : Bool
  operands : List Nat
deriving DecidableEq

/-- An LLVM basic block: its address (the `BasicBlock*` the driver stores in
`to_remove`) and its instruction list. -/
structure BasicBlock where
  addr : Nat
  insts : List Instruction
deriving DecidableEq

/-- An LLVM function: its list of basic blocks, in iteration order. -/
structure Function where
  blocks : List BasicBlock
deriving DecidableEq

/-- `llvm::MachineCodeInfo`: what the execution engine reports. -/
structure MachineCodeInfo where
  address : Nat
  size : Nat
deriving DecidableEq

/-- The null pointer. -/
def NULL : Nat := 0

/-- `I->empty()`. -/
def BasicBlock.empty (bb : BasicBlock) : Bool := bb.insts.isEmpty

/-- `I->back().isTerminator()` (asked of non-empty blocks only; `false` when
there is no last instruction). -/
def BasicBlock.back_isTerminator (bb : BasicBlock) : Bool :=
  match bb.insts.getLast? with
  | some i => i.isTerminator
  | none => false

/-- Block `b` holds a terminator instruction that uses block `bb`: this is what
makes `b` a predecessor of `bb` for `llvm::pred_iterator`. -/
def BasicBlock.jumps_to (b bb : BasicBlock) : Bool :=
  b.insts.any (fun i => i.isTerminator && i.operands.contains bb.addr)

/-- The blocks `llvm::pred_begin(&bb) .. llvm::pred_end(&bb)` ranges over. -/
def predecessors (f : Function) (bb : BasicBlock) : List BasicBlock :=
  f.blocks.filter (fun b => b.jumps_to bb)

/-- `llvm::pred_begin(&bb) == llvm::pred_end(&bb)`. -/
def pred_empty (f : Function) (bb : BasicBlock) : Bool :=
  (predecessors f bb).isEmpty

/-- `bb->eraseFromParent()`: the block at address `a` leaves the function's
block list. -/
def eraseFromParent (f : Function) (a : Nat) : Function :=
  ⟨f.blocks.filter (fun b => b.addr != a)⟩

/-- `function_->dropAllReferences()`: LLVM drops the operands of every
instruction and deletes every basic block of the function. -/
def dropAllReferences (_f : Function) : Function := ⟨[]⟩

/-! ## Observable calls -/

/-- The fixed texts the driver prints. -/
inductive Message where
  | simple_ir_header
  | empty_and_used
  | no_terminator
  | compilation_error
  | optimized_ir_header
deriving DecidableEq

/-- One call made by the driver on a collaborator. -/
inductive Event where
  | gc_independent
  | gc_dependent
  | outs (m : Message)
  | errs (m : Message)
  | outs_function (f : Function)
  | errs_block (bb : BasicBlock)
  | eraseFromParent (addr : Nat)
  | verifyFunction (f : Function)
  | passes_run (f : Function)
  | runJITOnFunction (f : Function) (mci : MachineCodeInfo)
  | add_code_bytes (n : Nat)
  | dropAllReferences
  | set_function (f : Function) (address size : Nat)
  | add_code_resource
  | log_compiling (is_block : Bool)
  | new_JITMethodInfo (is_block : Bool)
  | set_self_class (cls : Nat)
  | set_root
  | setup
  | generate_body
  | generate_hard_return
deriving DecidableEq

/-! ## Collaborators -/

/-- `VMMethod`: only its parent link is read. -/
structure VMMethod where
  parent : Option Nat
deriving DecidableEq

/-- `CompiledMethod`: the attributes the driver reads. -/
structure CompiledMethod where
  name : Nat
  file : Nat
  start_line : Nat
  backend_method : VMMethod
deriving DecidableEq

/-- `BackgroundCompileRequest`. -/
structure BackgroundCompileRequest where
  is_block : Bool
  method : CompiledMethod
  vmmethod : VMMethod
  receiver_class : Option Nat
deriving DecidableEq

/-- `JITMethodInfo`, as the driver fills it in. -/
structure JITMethodInfo where
  cm : CompiledMethod
  vmm : VMMethod
  is_block : Bool
  self_class : Option Nat
deriving DecidableEq

/-- A `jit::Builder` (`BlockBuilder` or `MethodBuilder`).  `setup` is the
function object `work.setup()` creates and `info.function()` then returns;
`generate_body` and `generate_hard_return` rewrite that object in place,
`generate_body` also answering whether the body is supported. -/
structure Builder where
  setup : Function
  generate_body : Function → Function × Bool
  generate_hard_return : Function → Function

/-- `LLVMState`, with the configuration the driver reads, the backend calls it
makes through it, and the JIT code-size counter.  `cSimple` and `cOptimized`
are the dump-flag masks of `llvm/state.hpp`. -/
structure LLVMState where
  jit_dump_code : Nat
  cSimple : Nat
  cOptimized : Nat
  debug_p : Bool
  jit_inline_debug : Bool
  verifyFunction : Function → Bool
  passes_run : Function → Function
  runJITOnFunction : Function → MachineCodeInfo
  BlockBuilder : JITMethodInfo → Builder
  MethodBuilder : JITMethodInfo → Builder
  code_bytes : Nat

/-- Modelled from the spec: `LLVMState::add_code_bytes` is declared in
`llvm/state.hpp`, which is not among the sources; the spec says it adds the
byte size to the process-wide JIT code-size budget. -/
def LLVMState.add_code_bytes (ls : LLVMState) (bytes : Nat) : LLVMState :=
  { ls with code_bytes := ls.code_bytes + bytes }

/-! ## The compiler -/

/-- The members of `jit::Compiler` the driver reads and writes. -/
structure Compiler where
  function_ : Option Function
  mci_ : Option MachineCodeInfo
deriving DecidableEq

/-- `Compiler::function_pointer`. -/
def function_pointer (c : Compiler) : Nat :=
  match c.mci_ with
  | none => NULL
  | some mci => mci.address

/-- The locals of the clean-up loop of `generate_function`, together with what
the loop has printed so far. -/
structure Scan where
  to_remove : List Nat
  Broken : Bool
  trace : List Event

/-- One iteration of the loop over the blocks of `function_`. -/
def scan_step (f : Function) (s : Scan) (bb : BasicBlock) : Scan :=
  if bb.empty then
    if pred_empty f bb then
      { s with to_remove := s.to_remove ++ [bb.addr] }
    else
      { s with trace := s.trace ++ [Event.outs Message.empty_and_used] }
  else if !bb.back_isTerminator then
    { s with
      Broken := true
      trace := s.trace ++ [Event.errs Message.no_terminator, Event.errs_block bb] }
  else s

/-- The loop over the blocks of `function_`. -/
def scan (f : Function) : Scan :=
  f.blocks.foldl (scan_step f) ⟨[], false, []⟩

/-- The loop over `to_remove`: each collected block is erased from the function. -/
def erase_all (f : Function) (to_remove : List Nat) : Function × List Event :=
  to_remove.foldl
    (fun acc a => (eraseFromParent acc.1 a, acc.2 ++ [Event.eraseFromParent a]))
    (f, [])

/-- What a call of `generate_function` leaves behind: the returned address, the
compiler, the `LLVMState`, and the calls made, in order. -/
structure Result where
  ret : Nat
  compiler : Compiler
  ls : LLVMState
  trace : List Event

/-- `Compiler::generate_function(ls, indy)`. -/
def generate_function (ls : LLVMState) (c : Compiler) (indy : Bool) : Result :=
  match c.mci_ with
  | some mci => ⟨mci.address, c, ls, []⟩
  | none =>
    match c.function_ with
    | none => ⟨NULL, c, ls, []⟩
    | some f =>
      let enter := if indy then [Event.gc_independent] else []
      let dump_simple :=
        if ls.jit_dump_code &&& ls.cSimple != 0 then
          [Event.outs Message.simple_ir_header, Event.outs_function f]
        else []
      let s := scan f
      let erased := erase_all f s.to_remove
      let f1 := erased.1
      let verify := if s.Broken then [] else [Event.verifyFunction f1]
      let leave := if indy then [Event.gc_dependent] else []
      if s.Broken || ls.verifyFunction f1 then
        ⟨NULL, { c with function_ := none }, ls,
          enter ++ dump_simple ++ s.trace ++ erased.2 ++ verify ++
            [Event.outs Message.compilation_error, Event.outs_function f1] ++ leave⟩
      else
        let f2 := ls.passes_run f1
        let dump_optimized :=
          if ls.jit_dump_code &&& ls.cOptimized != 0 then
            [Event.outs Message.optimized_ir_header, Event.outs_function f2]
          else []
        let mci := ls.runJITOnFunction f2
        let ls1 := ls.add_code_bytes mci.size
        let f3 := if !ls.debug_p then dropAllReferences f2 else f2
        let drop := if !ls.debug_p then [Event.dropAllReferences] else []
        ⟨mci.address, { function_ := some f3, mci_ := some mci }, ls1,
          enter ++ dump_simple ++ s.trace ++ erased.2 ++ verify ++
            [Event.passes_run f1] ++ dump_optimized ++
            [Event.runJITOnFunction f2 mci, Event.add_code_bytes mci.size] ++
            drop ++ leave ++
            [Event.set_function f3 mci.address mci.size, Event.add_code_resource]⟩

/-- How a `compile_*` call ends: the `assert` fails (before anything else has
happened), or the call returns. -/
inductive Outcome where
  | assertion_failed
  | returned (c : Compiler) (trace : List Event)
deriving DecidableEq

/-- `Compiler::compile_builder`.  `function_` points at the object the Builder
rewrites, so after `generate_hard_return` it designates the finished body. -/
def compile_builder (c : Compiler) (work : Builder) : Compiler × List Event :=
  let c1 : Compiler := { c with function_ := some work.setup }
  let body := work.generate_body work.setup
  if !body.2 then
    ({ c1 with function_ := none }, [Event.generate_body])
  else
    ({ c1 with function_ := some (work.generate_hard_return body.1) },
      [Event.generate_body, Event.generate_hard_return])

/-- `Compiler::compile_block`.  The `assert(vmm->parent())` is the first
statement inside the `jit_inline_debug` branch; assertions are taken as compiled in. -/
def compile_block (ls : LLVMState) (c : Compiler) (cm : CompiledMethod)
    (vmm : VMMethod) : Outcome :=
  let rest (log : List Event) : Outcome :=
    let info : JITMethodInfo := ⟨cm, vmm, true, none⟩
    let work := ls.BlockBuilder info
    let r := compile_builder c work
    Outcome.returned r.1
      (log ++ [Event.new_JITMethodInfo true, Event.set_root, Event.setup] ++ r.2)
  if ls.jit_inline_debug then
    if vmm.parent.isNone then
      Outcome.assertion_failed
    else
      rest [Event.log_compiling true]
  else
    rest []

/-- `Compiler::compile_method`. -/
def compile_method (ls : LLVMState) (c : Compiler)
    (req : BackgroundCompileRequest) : Outcome :=
  let cm := req.method
  let log := if ls.jit_inline_debug then [Event.log_compiling false] else []
  let info : JITMethodInfo := ⟨cm, cm.backend_method, false, req.receiver_class⟩
  let set_class :=
    match req.receiver_class with
    | some cls => [Event.set_self_class cls]
    | none => []
  let work := ls.MethodBuilder info
  let r := compile_builder c work
  Outcome.returned r.1
    (log ++ [Event.new_JITMethodInfo false] ++ set_class ++
      [Event.set_root, Event.setup] ++ r.2)

/-- `Compiler::compile`. -/
def compile (ls : LLVMState) (c : Compiler) (req : BackgroundCompileRequest) : Outcome :=
  if req.is_block then
    compile_block ls c req.method req.vmmethod
  else
    compile_method ls c req

/-! ## Reading a trace -/

/-- The call is one of the two GC toggles. -/
def Event.isGcToggle : Event → Bool
  | .gc_independent => true
  | .gc_dependent => true
  | _ => false

/-- The call is one of the backend steps of `generate_function`: erasing a
block, the verifier, the optimizer, the lowering, the code-size accounting, the
IR release. -/
def Event.isBackendStep : Event → Bool
  | .eraseFromParent _ => true
  | .verifyFunction _ => true
  | .passes_run _ => true
  | .runJITOnFunction _ _ => true
  | .add_code_bytes _ => true
  | .dropAllReferences => true
  | _ => false

/-- The call populates or registers the RuntimeDataHolder. -/
def Event.isInstall : Event → Bool
  | .set_function _ _ _ => true
  | .add_code_resource => true
  | _ => false

/-- The call only prints. -/
def Event.isOutput : Event → Bool
  | .outs _ => true
  | .errs _ => true
  | .outs_function _ => true
  | .errs_block _ => true
  | _ => false

/-- The call is a verifier run. -/
def Event.isVerify : Event → Bool
  | .verifyFunction _ => true
  | _ => false

/-- The size the execution engine reported, when the call is a lowering. -/
def Event.lowered_size : Event → Option Nat
  | .runJITOnFunction _ mci => some mci.size
  | _ => none

/-- The call is one of those that follow a passed verification: the optimizer,
the lowering, `add_code_bytes`, `set_function`, `add_code_resource`. -/
def Event.isCodegen : Event → Bool
  | .passes_run _ => true
  | .runJITOnFunction _ _ => true
  | .add_code_bytes _ => true
  | .set_function _ _ _ => true
  | .add_code_resource => true
  | _ => false

/-- The call is the IR release. -/
def Event.isRelease : Event → Bool
  | .dropAllReferences => true
  | _ => false

/-- The function after the two clean-up loops of `generate_function`. -/
def cleaned (f : Function) : Function :=
  (erase_all f (scan f).to_remove).1

/-- The sizes reported by the lowerings in a trace, in order. -/
def lowered_sizes (t : List Event) : List Nat := t.filterMap Event.lowered_size

/-! ## Several compilers -/

/-- A process: the shared `LLVMState` and its compilers, numbered from 0. -/
structure World where
  ls : LLVMState
  compilers : List Compiler

/-- One `generate_function` call on compiler number `i` (nothing happens when
there is no such compiler). -/
def World.call (w : World) (i : Nat) (indy : Bool) : World × List Event :=
  match w.compilers[i]? with
  | none => (w, [])
  | some c =>
    let r := generate_function w.ls c indy
    (⟨r.ls, w.compilers.set i r.compiler⟩, r.trace)

/-- A sequence of `generate_function` calls, each given by the number of the
compiler and the flag; every call made is recorded with the number of the
compiler that made it. -/
def World.run (w : World) : List (Nat × Bool) → World × List (Nat × Event)
  | [] => (w, [])
  | (i, indy) :: rest =>
    let r := w.call i indy
    let r2 := World.run r.1 rest
    (r2.1, r.2.map (fun e => (i, e)) ++ r2.2)

/-- The calls compiler number `i` made, out of a recorded sequence. -/
def calls_of (i : Nat) (t : List (Nat × Event)) : List Event :=
  (t.filter (fun p => p.1 == i)).map Prod.snd

/-! ## Concrete inputs -/

/-- A non-terminator instruction. -/
def ex_add : Instruction := ⟨false, []⟩

/-- A return. -/
def ex_ret : Instruction := ⟨true, []⟩

/-- A branch to the block at address `a`. -/
def ex_br (a : Nat) : Instruction := ⟨true, [a]⟩

/-- A well-formed body with one empty block nobody jumps to. -/
def ex_good : Function := ⟨[⟨1, [ex_add, ex_ret]⟩, ⟨2, []⟩, ⟨3, [ex_ret]⟩]⟩

/-- A body whose only block does not end in a terminator. -/
def ex_broken : Function := ⟨[⟨1, [ex_ret, ex_add]⟩]⟩

/-- A body with an empty block that the first block jumps to. -/
def ex_used : Function := ⟨[⟨1, [ex_add, ex_br 2]⟩, ⟨2, []⟩]⟩

/-- A Builder that supports its body. -/
def ex_builder : Builder := ⟨⟨[]⟩, fun _ => (ex_good, true), fun f => f⟩

/-- A Builder that reports its body unsupported. -/
def ex_builder_unsupported : Builder := ⟨⟨[]⟩, fun f => (f, false), fun f => f⟩

/-- A block without a parent. -/
def ex_orphan : VMMethod := ⟨none⟩

/-- A method. -/
def ex_cm : CompiledMethod := ⟨7, 8, 9, ⟨none⟩⟩

/-- An `LLVMState` whose verifier accepts every function, with dumps and debug
modes off. -/
def ex_ls : LLVMState where
  jit_dump_code := 0
  cSimple := 1
  cOptimized := 2
  debug_p := false
  jit_inline_debug := false
  verifyFunction := fun _ => false
  passes_run := fun f => f
  runJITOnFunction := fun f => ⟨4096, 16 * f.blocks.length⟩
  BlockBuilder := fun _ => ex_builder
  MethodBuilder := fun _ => ex_builder_unsupported
  code_bytes := 100

/-- The same, with a verifier that rejects every function. -/
def ex_ls_strict : LLVMState := { ex_ls with verifyFunction := fun _ => true }

/-- The same as `ex_ls`, with JIT debug mode on. -/
def ex_ls_debug : LLVMState := { ex_ls with debug_p := true }

/-- The same as `ex_ls`, with `jit_inline_debug` on. -/
def ex_ls_inline_debug : LLVMState := { ex_ls with jit_inline_debug := true }

end jit
end rubinius

namespace rubinius
namespace jit

/-! ## The clean-up loops -/

theorem foldl_scan_to_remove (f : Function) (bs : List BasicBlock) (s : Scan) :
    (bs.foldl (scan_step f) s).to_remove =
      s.to_remove ++ (bs.filter (fun b => b.empty && pred_empty f b)).map BasicBlock.addr := by
  induction bs generalizing s with
  | nil => simp
  | cons b bs ih =>
    rw [List.foldl_cons, ih]
    by_cases he : b.empty = true <;> by_cases hp : pred_empty f b = true <;>
      simp [scan_step, he, hp, List.filter_cons] <;> split <;> simp

theorem foldl_scan_Broken (f : Function) (bs : List BasicBlock) (s : Scan) :
    (bs.foldl (scan_step f) s).Broken =
      (s.Broken || bs.any (fun b => !b.empty && !b.back_isTerminator)) := by
  induction bs generalizing s with
  | nil => simp
  | cons b bs ih =>
    rw [List.foldl_cons, ih]
    by_cases he : b.empty = true <;> by_cases hp : pred_empty f b = true <;>
      by_cases ht : b.back_isTerminator = true <;>
      simp [scan_step, he, hp, ht]

theorem foldl_scan_trace (f : Function) (bs : List BasicBlock) (s : Scan) :
    ∀ e ∈ (bs.foldl (scan_step f) s).trace, e ∈ s.trace ∨ e.isOutput = true := by
  induction bs generalizing s with
  | nil => intro e he; exact Or.inl he
  | cons b bs ih =>
    intro e he
    rw [List.foldl_cons] at he
    rcases ih _ e he with h | h
    · unfold scan_step at h
      split at h
      · split at h
        · exact Or.inl h
        · simp only [List.mem_append, List.mem_singleton] at h
          rcases h with h | h
          · exact Or.inl h
          · right; rw [h]; rfl
      · split at h
        · simp only [List.mem_append, List.mem_cons, List.mem_singleton] at h
          rcases h with h | h | h | h
          · exact Or.inl h
          · right; rw [h]; rfl
          · right; rw [h]; rfl
          · simp at h
        · exact Or.inl h
    · exact Or.inr h

theorem scan_to_remove (f : Function) :
    (scan f).to_remove =
      (f.blocks.filter (fun b => b.empty && pred_empty f b)).map BasicBlock.addr := by
  simp [scan, foldl_scan_to_remove]

theorem scan_Broken (f : Function) :
    (scan f).Broken = f.blocks.any (fun b => !b.empty && !b.back_isTerminator) := by
  simp [scan, foldl_scan_Broken]

theorem scan_trace_isOutput (f : Function) : ∀ e ∈ (scan f).trace, e.isOutput = true := by
  intro e he
  rcases foldl_scan_trace f f.blocks ⟨[], false, []⟩ e he with h | h
  · simp at h
  · exact h

theorem foldl_erase (as : List Nat) (acc : Function × List Event) :
    as.foldl (fun acc a => (eraseFromParent acc.1 a, acc.2 ++ [Event.eraseFromParent a])) acc =
      (⟨acc.1.blocks.filter (fun b => !as.contains b.addr)⟩,
        acc.2 ++ as.map Event.eraseFromParent) := by
  induction as generalizing acc with
  | nil => simp
  | cons a as ih =>
    rw [List.foldl_cons, ih]
    simp only [eraseFromParent, List.filter_filter, List.map_cons, List.append_assoc,
      List.singleton_append, Prod.mk.injEq, Function.mk.injEq, and_true]
    apply List.filter_congr
    intro b _
    by_cases h : b.addr = a <;> simp [h, List.contains_cons]

theorem erase_all_fst (f : Function) (as : List Nat) :
    (erase_all f as).1 = ⟨f.blocks.filter (fun b => !as.contains b.addr)⟩ := by
  simp [erase_all, foldl_erase]

theorem erase_all_snd (f : Function) (as : List Nat) :
    (erase_all f as).2 = as.map Event.eraseFromParent := by
  simp [erase_all, foldl_erase]

/-! ## The cached path -/

theorem generate_function_cached (ls : LLVMState) (c : Compiler) (indy : Bool)
    (mci : MachineCodeInfo) (h : c.mci_ = some mci) :
    generate_function ls c indy = ⟨mci.address, c, ls, []⟩ := by
  simp [generate_function, h]

theorem generate_function_no_function (ls : LLVMState) (c : Compiler) (indy : Bool)
    (h : c.mci_ = none) (hf : c.function_ = none) :
    generate_function ls c indy = ⟨NULL, c, ls, []⟩ := by
  simp [generate_function, h, hf]

/-- C1: once a call of `generate_function` has succeeded (it left `mci_` set,
to a MachineCodeInfo with address `A`), that call returned `A`, and every later
call, for any flag and whatever the `LLVMState` has become, returns `A`, leaves
the compiler and the `LLVMState` as they were and makes no call at all (so no GC
toggle, clean-up, verifier, optimizer, lowering, `add_code_bytes`,
`set_function` or `add_code_resource`); `function_pointer` returns `A` too. -/
theorem generate_function_idempotent (ls : LLVMState) (c : Compiler) (indy0 : Bool)
    (mci : MachineCodeInfo)
    (h : (generate_function ls c indy0).compiler.mci_ = some mci) :
    (generate_function ls c indy0).ret = mci.address ∧
    function_pointer (generate_function ls c indy0).compiler = mci.address ∧
    ∀ (ls1 : LLVMState) (indy : Bool),
      generate_function ls1 (generate_function ls c indy0).compiler indy =
        ⟨mci.address, (generate_function ls c indy0).compiler, ls1, []⟩ := by
  refine ⟨?_, ?_, ?_⟩
  · cases hm : c.mci_ with
    | some m =>
      simp only [generate_function, hm, Option.some.injEq] at h ⊢
      rw [h]
    | none =>
      cases hf : c.function_ with
      | none => simp [generate_function, hm, hf] at h
      | some f =>
        by_cases hb : ((scan f).Broken || ls.verifyFunction (erase_all f (scan f).to_remove).1) = true
        · simp [generate_function, hm, hf, hb] at h
        · simp only [generate_function, hm, hf, hb, Bool.false_eq_true, if_false,
            Option.some.injEq] at h ⊢
          rw [← h]
  · simp [function_pointer, h]
  · intro ls1 indy
    exact generate_function_cached ls1 _ indy mci h

/-- C1, at a concrete input: a first call on `ex_good` succeeds with address 4096. -/
theorem generate_function_idempotent_witness :
    (generate_function ex_ls ⟨some ex_good, none⟩ true).ret = 4096 ∧
    function_pointer (generate_function ex_ls ⟨some ex_good, none⟩ true).compiler = 4096 ∧
    ∀ (ls1 : LLVMState) (indy : Bool),
      generate_function ls1 (generate_function ex_ls ⟨some ex_good, none⟩ true).compiler indy =
        ⟨4096, (generate_function ex_ls ⟨some ex_good, none⟩ true).compiler, ls1, []⟩ :=
  generate_function_idempotent ex_ls ⟨some ex_good, none⟩ true ⟨4096, 32⟩ (by decide)

/-! ## GC toggles -/

theorem scan_trace_filter_isGcToggle (f : Function) :
    (scan f).trace.filter Event.isGcToggle = [] := by
  rw [List.filter_eq_nil_iff]
  intro e he
  have h := scan_trace_isOutput f e he
  cases e <;> simp_all [Event.isOutput, Event.isGcToggle]

theorem erase_all_snd_filter_isGcToggle (f : Function) (as : List Nat) :
    (erase_all f as).2.filter Event.isGcToggle = [] := by
  rw [erase_all_snd, List.filter_eq_nil_iff]
  intro e he
  rw [List.mem_map] at he
  obtain ⟨a, _, rfl⟩ := he
  simp [Event.isGcToggle]

/-- C2: the GC toggles of one `generate_function` call, in order, are exactly
`gc_independent, gc_dependent` when the flag is set and the call gets past the
two early returns (no cached code, a function present), whether it then aborts
or succeeds; otherwise (flag false, cached code, or no function) there is no
toggle at all. -/
theorem gc_toggles_balanced (ls : LLVMState) (c : Compiler) (indy : Bool) :
    (generate_function ls c indy).trace.filter Event.isGcToggle =
      if indy && c.mci_.isNone && c.function_.isSome then
        [Event.gc_independent, Event.gc_dependent]
      else [] := by
  cases hm : c.mci_ with
  | some m => simp [generate_function, hm]
  | none =>
    cases hf : c.function_ with
    | none => simp [generate_function, hm, hf]
    | some f =>
      by_cases hb : ((scan f).Broken || ls.verifyFunction (erase_all f (scan f).to_remove).1) = true
      · simp only [generate_function, hm, hf, hb, if_true, List.filter_append,
          scan_trace_filter_isGcToggle, erase_all_snd_filter_isGcToggle]
        cases indy <;> by_cases h1 : (ls.jit_dump_code &&& ls.cSimple != 0) = true <;>
          by_cases h2 : (scan f).Broken = true <;>
          simp [h1, h2, Event.isGcToggle]
      · simp only [generate_function, hm, hf, hb, Bool.false_eq_true, if_false,
          List.filter_append, scan_trace_filter_isGcToggle, erase_all_snd_filter_isGcToggle]
        cases indy <;> by_cases h1 : (ls.jit_dump_code &&& ls.cSimple != 0) = true <;>
          by_cases h2 : (scan f).Broken = true <;>
          by_cases h3 : (ls.jit_dump_code &&& ls.cOptimized != 0) = true <;>
          by_cases h4 : ls.debug_p = true <;>
          simp [h1, h2, h3, h4, Event.isGcToggle]

/-! ## Unsupported bodies -/

/-- C3: when `generate_body` reports unsupported on a unit that holds no code
yet, `compile_builder` calls `generate_body` and nothing else (in particular not
`generate_hard_return`) and leaves `function_` null; `function_pointer` is null,
and every later `generate_function` call returns null, makes no call at all (no
`add_code_resource`, no `set_function`, no `add_code_bytes`, no
`gc_independent`) and leaves the compiler and the `LLVMState`, code-size counter
included, as they were. -/
theorem unsupported_leaves_no_trace (c : Compiler) (work : Builder)
    (hm : c.mci_ = none) (hu : (work.generate_body work.setup).2 = false) :
    (compile_builder c work).2 = [Event.generate_body] ∧
    Event.generate_hard_return ∉ (compile_builder c work).2 ∧
    (compile_builder c work).1.function_ = none ∧
    function_pointer (compile_builder c work).1 = NULL ∧
    ∀ (ls : LLVMState) (indy : Bool),
      generate_function ls (compile_builder c work).1 indy =
        ⟨NULL, (compile_builder c work).1, ls, []⟩ := by
  have h1 : compile_builder c work = (⟨none, none⟩, [Event.generate_body]) := by
    simp [compile_builder, hu, hm]
  rw [h1]
  refine ⟨rfl, by simp, rfl, rfl, ?_⟩
  intro ls indy
  exact generate_function_no_function ls _ indy rfl rfl

/-- C3, at a concrete input: a fresh unit and a Builder that reports unsupported. -/
theorem unsupported_leaves_no_trace_witness :
    (compile_builder ⟨none, none⟩ ex_builder_unsupported).2 = [Event.generate_body] ∧
    Event.generate_hard_return ∉ (compile_builder ⟨none, none⟩ ex_builder_unsupported).2 ∧
    (compile_builder ⟨none, none⟩ ex_builder_unsupported).1.function_ = none ∧
    function_pointer (compile_builder ⟨none, none⟩ ex_builder_unsupported).1 = NULL ∧
    ∀ (ls : LLVMState) (indy : Bool),
      generate_function ls (compile_builder ⟨none, none⟩ ex_builder_unsupported).1 indy =
        ⟨NULL, (compile_builder ⟨none, none⟩ ex_builder_unsupported).1, ls, []⟩ :=
  unsupported_leaves_no_trace ⟨none, none⟩ ex_builder_unsupported rfl rfl

/-! ## Malformed IR -/

theorem scan_Broken_iff (f : Function) :
    (scan f).Broken = true ↔
      ∃ b ∈ f.blocks, b.empty = false ∧ b.back_isTerminator = false := by
  rw [scan_Broken, List.any_eq_true]
  constructor
  · rintro ⟨b, hb, h⟩
    refine ⟨b, hb, ?_⟩
    simpa using h
  · rintro ⟨b, hb, h1, h2⟩
    exact ⟨b, hb, by simp [h1, h2]⟩

theorem forall_of_filter_eq_nil {l : List Event} {p : Event → Bool}
    (h : l.filter p = []) : ∀ e ∈ l, p e = false := by
  intro e he
  have h1 := List.filter_eq_nil_iff.mp h e he
  simpa using h1

theorem scan_trace_filter (f : Function) (p : Event → Bool)
    (hp : ∀ e, e.isOutput = true → p e = false) : (scan f).trace.filter p = [] := by
  rw [List.filter_eq_nil_iff]
  intro e he
  simp [hp e (scan_trace_isOutput f e he)]

theorem erase_all_snd_filter (f : Function) (as : List Nat) (p : Event → Bool)
    (hp : ∀ a, p (Event.eraseFromParent a) = false) : (erase_all f as).2.filter p = [] := by
  rw [erase_all_snd, List.filter_eq_nil_iff]
  intro e he
  rw [List.mem_map] at he
  obtain ⟨a, _, rfl⟩ := he
  simp [hp a]

theorem scan_trace_filter_isCodegen (f : Function) :
    (scan f).trace.filter Event.isCodegen = [] :=
  scan_trace_filter f _ (by intro e h; cases e <;> simp_all [Event.isOutput, Event.isCodegen])

theorem scan_trace_filter_isVerify (f : Function) :
    (scan f).trace.filter Event.isVerify = [] :=
  scan_trace_filter f _ (by intro e h; cases e <;> simp_all [Event.isOutput, Event.isVerify])

theorem erase_all_snd_filter_isCodegen (f : Function) (as : List Nat) :
    (erase_all f as).2.filter Event.isCodegen = [] :=
  erase_all_snd_filter f as _ (fun _ => rfl)

theorem erase_all_snd_filter_isVerify (f : Function) (as : List Nat) :
    (erase_all f as).2.filter Event.isVerify = [] :=
  erase_all_snd_filter f as _ (fun _ => rfl)

/-- C4: on a built function (no code yet, `function_` set), if some non-empty
block does not end in a terminator, or the verifier rejects the cleaned
function, then `generate_function` returns null, sets `function_` to null,
leaves `mci_` null (so `function_pointer` is null) and the `LLVMState`
unchanged, and makes none of the calls `passes.run`, `runJITOnFunction`,
`add_code_bytes`, `set_function`, `add_code_resource`; in the missing-terminator
case the verifier is not called; every later call returns null and does nothing. -/
theorem malformed_ir_aborts (ls : LLVMState) (c : Compiler) (indy : Bool) (f : Function)
    (hm : c.mci_ = none) (hf : c.function_ = some f)
    (hbad : (∃ b ∈ f.blocks, b.empty = false ∧ b.back_isTerminator = false) ∨
      ls.verifyFunction (cleaned f) = true) :
    (generate_function ls c indy).ret = NULL ∧
    (generate_function ls c indy).compiler = ⟨none, none⟩ ∧
    function_pointer (generate_function ls c indy).compiler = NULL ∧
    (generate_function ls c indy).ls = ls ∧
    (∀ e ∈ (generate_function ls c indy).trace, e.isCodegen = false) ∧
    ((∃ b ∈ f.blocks, b.empty = false ∧ b.back_isTerminator = false) →
      ∀ e ∈ (generate_function ls c indy).trace, e.isVerify = false) ∧
    ∀ (ls1 : LLVMState) (indy1 : Bool),
      generate_function ls1 (generate_function ls c indy).compiler indy1 =
        ⟨NULL, (generate_function ls c indy).compiler, ls1, []⟩ := by
  have hb : ((scan f).Broken || ls.verifyFunction (erase_all f (scan f).to_remove).1) = true := by
    rcases hbad with h | h
    · rw [(scan_Broken_iff f).mpr h]; rfl
    · unfold cleaned at h
      rw [h]; simp
  have hc : (generate_function ls c indy).compiler = ⟨none, none⟩ := by
    simp [generate_function, hm, hf, hb]
  refine ⟨?_, hc, ?_, ?_, ?_, ?_, ?_⟩
  · simp [generate_function, hm, hf, hb]
  · rw [hc]; rfl
  · simp [generate_function, hm, hf, hb]
  · apply forall_of_filter_eq_nil
    simp only [generate_function, hm, hf, hb, if_true, List.filter_append,
      scan_trace_filter_isCodegen, erase_all_snd_filter_isCodegen]
    cases indy <;> by_cases h1 : (ls.jit_dump_code &&& ls.cSimple != 0) = true <;>
      by_cases h2 : (scan f).Broken = true <;>
      simp [h1, h2, Event.isCodegen]
  · intro hbr
    have hB := (scan_Broken_iff f).mpr hbr
    apply forall_of_filter_eq_nil
    simp only [generate_function, hm, hf, hb, if_true, List.filter_append,
      scan_trace_filter_isVerify, erase_all_snd_filter_isVerify]
    cases indy <;> by_cases h1 : (ls.jit_dump_code &&& ls.cSimple != 0) = true <;>
      simp [h1, hB, Event.isVerify]
  · intro ls1 indy1
    rw [hc]
    exact generate_function_no_function ls1 _ indy1 rfl rfl

/-- C4, at a concrete input: `ex_broken` has a non-empty block that ends in a
non-terminator, and the verifier of `ex_ls` would accept anything. -/
theorem malformed_ir_aborts_witness :
    (∃ b ∈ ex_broken.blocks, b.empty = false ∧ b.back_isTerminator = false) ∧
    (generate_function ex_ls ⟨some ex_broken, none⟩ true).ret = NULL ∧
    (generate_function ex_ls ⟨some ex_broken, none⟩ true).compiler = ⟨none, none⟩ ∧
    function_pointer (generate_function ex_ls ⟨some ex_broken, none⟩ true).compiler = NULL :=
  have hbr : ∃ b ∈ ex_broken.blocks, b.empty = false ∧ b.back_isTerminator = false :=
    ⟨⟨1, [ex_ret, ex_add]⟩, by decide, by decide, by decide⟩
  have h := malformed_ir_aborts ex_ls ⟨some ex_broken, none⟩ true ex_broken rfl rfl (Or.inl hbr)
  ⟨hbr, h.1, h.2.1, h.2.2.1⟩

/-! ## Parentless blocks -/

/-- C5 fails as stated: with `jit_inline_debug` off, `compile_block` on a block
whose parent is null returns normally, having built the JITMethodInfo, called
`set_root` and `setup`, and run `generate_body` and `generate_hard_return`. -/
theorem parentless_block_not_rejected :
    ex_orphan.parent = none ∧ ex_ls.jit_inline_debug = false ∧
    compile_block ex_ls ⟨none, none⟩ ex_cm ex_orphan =
      Outcome.returned ⟨some ex_good, none⟩
        [Event.new_JITMethodInfo true, Event.set_root, Event.setup,
          Event.generate_body, Event.generate_hard_return] := by
  decide

/-- C5, amended: with `jit_inline_debug` on, `compile_block` on a block whose
parent is null stops in the `assert` before any call has been made: no
JITMethodInfo, no `set_root`, no `setup`, no `generate_body`. -/
theorem parentless_block_rejected_in_debug (ls : LLVMState) (c : Compiler)
    (cm : CompiledMethod) (vmm : VMMethod)
    (hd : ls.jit_inline_debug = true) (hp : vmm.parent = none) :
    compile_block ls c cm vmm = Outcome.assertion_failed := by
  simp [compile_block, hd, hp]

/-- C5, amended, at a concrete input. -/
theorem parentless_block_rejected_in_debug_witness :
    ex_ls_inline_debug.jit_inline_debug = true ∧ ex_orphan.parent = none ∧
    compile_block ex_ls_inline_debug ⟨none, none⟩ ex_cm ex_orphan = Outcome.assertion_failed :=
  ⟨rfl, rfl, parentless_block_rejected_in_debug ex_ls_inline_debug ⟨none, none⟩ ex_cm ex_orphan
    rfl rfl⟩

/-! ## Code-size accounting -/

theorem scan_trace_lowered_sizes (f : Function) : lowered_sizes (scan f).trace = [] := by
  unfold lowered_sizes
  rw [List.filterMap_eq_nil_iff]
  intro e he
  have h := scan_trace_isOutput f e he
  cases e <;> simp_all [Event.isOutput, Event.lowered_size]

theorem erase_all_snd_lowered_sizes (f : Function) (as : List Nat) :
    lowered_sizes (erase_all f as).2 = [] := by
  unfold lowered_sizes
  rw [erase_all_snd, List.filterMap_eq_nil_iff]
  intro e he
  rw [List.mem_map] at he
  obtain ⟨a, _, rfl⟩ := he
  rfl

theorem lowered_sizes_append (s t : List Event) :
    lowered_sizes (s ++ t) = lowered_sizes s ++ lowered_sizes t := by
  simp [lowered_sizes]

/-- One call either lowers nothing and leaves the `LLVMState` alone (and the
compiler too, when it already had code), or lowers once, adds the reported size
and leaves `mci_` set. -/
theorem generate_function_accounting (ls : LLVMState) (c : Compiler) (indy : Bool) :
    (lowered_sizes (generate_function ls c indy).trace = [] ∧
      (generate_function ls c indy).ls = ls ∧
      (c.mci_.isSome = true → (generate_function ls c indy).compiler = c) ∧
      (c.mci_ = none → (generate_function ls c indy).compiler.mci_ = none)) ∨
    (∃ n, lowered_sizes (generate_function ls c indy).trace = [n] ∧
      (generate_function ls c indy).ls = ls.add_code_bytes n ∧
      (generate_function ls c indy).compiler.mci_.isSome = true ∧
      c.mci_ = none) := by
  cases hm : c.mci_ with
  | some m => left; simp [generate_function, hm, lowered_sizes]
  | none =>
    cases hf : c.function_ with
    | none => left; simp [generate_function, hm, hf, lowered_sizes]
    | some f =>
      by_cases hb : ((scan f).Broken || ls.verifyFunction (erase_all f (scan f).to_remove).1) = true
      · left
        simp only [generate_function, hm, hf, hb, if_true, lowered_sizes_append,
          scan_trace_lowered_sizes, erase_all_snd_lowered_sizes]
        cases indy <;> by_cases h1 : (ls.jit_dump_code &&& ls.cSimple != 0) = true <;>
          by_cases h2 : (scan f).Broken = true <;>
          simp [h1, h2, lowered_sizes, Event.lowered_size]
      · right
        refine ⟨(ls.runJITOnFunction (ls.passes_run (erase_all f (scan f).to_remove).1)).size, ?_⟩
        simp only [generate_function, hm, hf, hb, Bool.false_eq_true, if_false,
          lowered_sizes_append, scan_trace_lowered_sizes, erase_all_snd_lowered_sizes]
        cases indy <;> by_cases h1 : (ls.jit_dump_code &&& ls.cSimple != 0) = true <;>
          by_cases h2 : (scan f).Broken = true <;>
          by_cases h3 : (ls.jit_dump_code &&& ls.cOptimized != 0) = true <;>
          by_cases h4 : ls.debug_p = true <;>
          simp [h1, h2, h3, h4, lowered_sizes, Event.lowered_size]

theorem call_code_bytes (w : World) (i : Nat) (indy : Bool) :
    (w.call i indy).1.ls.code_bytes = w.ls.code_bytes + (lowered_sizes (w.call i indy).2).sum := by
  unfold World.call
  cases hc : w.compilers[i]? with
  | none => simp [lowered_sizes]
  | some c =>
    rcases generate_function_accounting w.ls c indy with ⟨h1, h2, _, _⟩ | ⟨n, h1, h2, _, _⟩
    · simp [h1, h2]
    · simp [h1, h2, LLVMState.add_code_bytes]

theorem call_other (w : World) (i j : Nat) (indy : Bool) (h : j ≠ i) :
    (w.call j indy).1.compilers[i]? = w.compilers[i]? := by
  unfold World.call
  cases hc : w.compilers[j]? with
  | none => rfl
  | some c => simp [List.getElem?_set_ne h]

theorem calls_of_append (i : Nat) (s t : List (Nat × Event)) :
    calls_of i (s ++ t) = calls_of i s ++ calls_of i t := by
  simp [calls_of]

theorem calls_of_tag_self (i : Nat) (t : List Event) :
    calls_of i (t.map (fun e => (i, e))) = t := by
  induction t with
  | nil => rfl
  | cons e t ih =>
    simp only [calls_of, List.map_cons, List.filter_cons, beq_self_eq_true, if_true,
      List.cons.injEq, true_and] at ih ⊢
    exact ih

theorem calls_of_tag_other (i j : Nat) (h : j ≠ i) (t : List Event) :
    calls_of i (t.map (fun e => (j, e))) = [] := by
  induction t with
  | nil => rfl
  | cons e t ih =>
    have hji : (j == i) = false := by simpa using h
    simp only [calls_of, List.map_cons, List.filter_cons, hji, Bool.false_eq_true, if_false] at ih ⊢
    exact ih

theorem run_code_bytes (w : World) (calls : List (Nat × Bool)) :
    (w.run calls).1.ls.code_bytes =
      w.ls.code_bytes + (lowered_sizes ((w.run calls).2.map Prod.snd)).sum := by
  induction calls generalizing w with
  | nil => simp [World.run, lowered_sizes]
  | cons p rest ih =>
    obtain ⟨i, indy⟩ := p
    simp only [World.run, List.map_append, List.map_map, lowered_sizes_append, List.sum_append]
    rw [ih, call_code_bytes]
    have : (List.map (Prod.snd ∘ fun e => (i, e)) (w.call i indy).2) = (w.call i indy).2 := by
      simp [Function.comp_def]
    rw [this]
    omega

theorem run_lowers_once (i : Nat) (calls : List (Nat × Bool)) (w : World) :
    (lowered_sizes (calls_of i (w.run calls).2)).length ≤ 1 ∧
    ((∀ c, w.compilers[i]? = some c → c.mci_.isSome = true) →
      lowered_sizes (calls_of i (w.run calls).2) = []) := by
  induction calls generalizing w with
  | nil => simp [World.run, calls_of, lowered_sizes]
  | cons p rest ih =>
    obtain ⟨j, indy⟩ := p
    simp only [World.run, calls_of_append, lowered_sizes_append, List.length_append]
    by_cases hji : j = i
    · subst hji
      rw [calls_of_tag_self]
      cases hc : w.compilers[j]? with
      | none =>
        have hw : w.call j indy = (w, []) := by simp [World.call, hc]
        rw [hw]
        have := ih w
        simp only [hc] at this
        simpa [lowered_sizes] using this
      | some c =>
        have hw : w.call j indy =
            (⟨(generate_function w.ls c indy).ls,
              w.compilers.set j (generate_function w.ls c indy).compiler⟩,
              (generate_function w.ls c indy).trace) := by
          simp [World.call, hc]
        rw [hw]
        have hlt : j < w.compilers.length := by
          rcases Nat.lt_or_ge j w.compilers.length with h | h
          · exact h
          · rw [List.getElem?_eq_none h] at hc
            cases hc
        have hget : (w.compilers.set j (generate_function w.ls c indy).compiler)[j]? =
            some (generate_function w.ls c indy).compiler := by
          simp [List.getElem?_set_self hlt]
        have hih := ih ⟨(generate_function w.ls c indy).ls,
              w.compilers.set j (generate_function w.ls c indy).compiler⟩
        simp only [hget, Option.some.injEq, forall_eq'] at hih
        rcases generate_function_accounting w.ls c indy with
          ⟨h1, _, h3, _⟩ | ⟨n, h1, _, h3, h4⟩
        · rw [h1]
          refine ⟨by simpa using hih.1, ?_⟩
          intro hsome
          have hs := hsome c rfl
          have := hih.2 (by rw [h3 hs]; exact hs)
          simpa using this
        · rw [h1, hih.2 h3]
          refine ⟨by simp, ?_⟩
          intro hsome
          have hs := hsome c rfl
          rw [h4] at hs
          simp at hs
    · rw [calls_of_tag_other i j hji]
      have hih := ih (w.call j indy).1
      rw [call_other w i j indy hji] at hih
      simpa [lowered_sizes] using hih

/-- C6: over any sequence of `generate_function` calls on any compilers, the
code-size counter ends at its initial value plus the sum of the sizes reported
by the lowerings that were run, and no compiler runs more than one lowering; a
single call adds the size the engine reports when it goes through to the
lowering, and nothing when it finds code already present, no function, or a
function it aborts on. -/
theorem code_size_accounting (w : World) (calls : List (Nat × Bool)) :
    (w.run calls).1.ls.code_bytes =
      w.ls.code_bytes + (lowered_sizes ((w.run calls).2.map Prod.snd)).sum ∧
    (∀ i, (lowered_sizes (calls_of i (w.run calls).2)).length ≤ 1) ∧
    (∀ (ls : LLVMState) (c : Compiler) (indy : Bool),
      (generate_function ls c indy).ls.code_bytes = ls.code_bytes +
        match c.mci_, c.function_ with
        | none, some f =>
          if (scan f).Broken || ls.verifyFunction (cleaned f) then 0
          else (ls.runJITOnFunction (ls.passes_run (cleaned f))).size
        | _, _ => 0) := by
  refine ⟨run_code_bytes w calls, fun i => (run_lowers_once i calls w).1, ?_⟩
  intro ls c indy
  cases hm : c.mci_ with
  | some m => simp [generate_function, hm]
  | none =>
    cases hf : c.function_ with
    | none => simp [generate_function, hm, hf]
    | some f =>
      by_cases hb : ((scan f).Broken || ls.verifyFunction (erase_all f (scan f).to_remove).1) = true
      · simp [generate_function, hm, hf, hb, cleaned]
      · simp [generate_function, hm, hf, hb, cleaned, LLVMState.add_code_bytes]

/-- Two compilers and five calls: only the first call on the well-formed body
adds to the counter. -/
theorem two_compilers_example :
    ((World.mk ex_ls [⟨some ex_good, none⟩, ⟨some ex_broken, none⟩]).run
      [(0, true), (1, true), (0, false), (1, false), (5, true)]).1.ls.code_bytes = 132 := by
  decide

/-! ## What GC-independent state brackets -/

theorem scan_trace_filter_isInstall (f : Function) :
    (scan f).trace.filter Event.isInstall = [] :=
  scan_trace_filter f _ (by intro e h; cases e <;> simp_all [Event.isOutput, Event.isInstall])

theorem erase_all_snd_filter_isInstall (f : Function) (as : List Nat) :
    (erase_all f as).2.filter Event.isInstall = [] :=
  erase_all_snd_filter f as _ (fun _ => rfl)

theorem flagged_call_brackets (ls : LLVMState) (c : Compiler) (f : Function)
    (hm : c.mci_ = none) (hf : c.function_ = some f) :
    ∃ mid post,
      (generate_function ls c true).trace =
        Event.gc_independent :: (mid ++ Event.gc_dependent :: post) ∧
      (∀ e ∈ mid, e.isGcToggle = false ∧ e.isInstall = false) ∧
      (∀ e ∈ post, e.isInstall = true ∧ e.isBackendStep = false ∧ e.isGcToggle = false) ∧
      ((generate_function ls c true).compiler.mci_ = none → post = []) ∧
      (∀ mci, (generate_function ls c true).compiler.mci_ = some mci →
        (∀ a ∈ (scan f).to_remove, Event.eraseFromParent a ∈ mid) ∧
        Event.verifyFunction (cleaned f) ∈ mid ∧
        Event.passes_run (cleaned f) ∈ mid ∧
        Event.runJITOnFunction (ls.passes_run (cleaned f)) mci ∈ mid ∧
        Event.add_code_bytes mci.size ∈ mid ∧
        (ls.debug_p = false → Event.dropAllReferences ∈ mid) ∧
        ∃ f3, post = [Event.set_function f3 mci.address mci.size, Event.add_code_resource]) := by
  by_cases hb : ((scan f).Broken || ls.verifyFunction (erase_all f (scan f).to_remove).1) = true
  · refine ⟨(if (ls.jit_dump_code &&& ls.cSimple != 0) = true then
          [Event.outs Message.simple_ir_header, Event.outs_function f] else []) ++
        (scan f).trace ++ (erase_all f (scan f).to_remove).2 ++
        (if (scan f).Broken = true then []
          else [Event.verifyFunction (erase_all f (scan f).to_remove).1]) ++
        [Event.outs Message.compilation_error,
          Event.outs_function (erase_all f (scan f).to_remove).1], [], ?_, ?_, ?_, ?_, ?_⟩
    · simp [generate_function, hm, hf, hb]
    · intro e he
      constructor
      · refine forall_of_filter_eq_nil ?_ e he
        simp only [List.filter_append, scan_trace_filter_isGcToggle,
          erase_all_snd_filter_isGcToggle]
        by_cases h1 : (ls.jit_dump_code &&& ls.cSimple != 0) = true <;>
          by_cases h2 : (scan f).Broken = true <;>
          simp [h1, h2, Event.isGcToggle]
      · refine forall_of_filter_eq_nil ?_ e he
        simp only [List.filter_append, scan_trace_filter_isInstall,
          erase_all_snd_filter_isInstall]
        by_cases h1 : (ls.jit_dump_code &&& ls.cSimple != 0) = true <;>
          by_cases h2 : (scan f).Broken = true <;>
          simp [h1, h2, Event.isInstall]
    · intro e he; cases he
    · intro _; rfl
    · intro mci h
      simp [generate_function, hm, hf, hb] at h
  · have hBV : (scan f).Broken = false ∧
        ls.verifyFunction (erase_all f (scan f).to_remove).1 = false := by
      simpa using hb
    obtain ⟨hB, hV⟩ := hBV
    refine ⟨(if (ls.jit_dump_code &&& ls.cSimple != 0) = true then
          [Event.outs Message.simple_ir_header, Event.outs_function f] else []) ++
        (scan f).trace ++ (erase_all f (scan f).to_remove).2 ++
        [Event.verifyFunction (erase_all f (scan f).to_remove).1] ++
        [Event.passes_run (erase_all f (scan f).to_remove).1] ++
        (if (ls.jit_dump_code &&& ls.cOptimized != 0) = true then
          [Event.outs Message.optimized_ir_header,
            Event.outs_function (ls.passes_run (erase_all f (scan f).to_remove).1)] else []) ++
        [Event.runJITOnFunction (ls.passes_run (erase_all f (scan f).to_remove).1)
            (ls.runJITOnFunction (ls.passes_run (erase_all f (scan f).to_remove).1)),
          Event.add_code_bytes
            (ls.runJITOnFunction (ls.passes_run (erase_all f (scan f).to_remove).1)).size] ++
        (if (!ls.debug_p) = true then [Event.dropAllReferences] else []),
      [Event.set_function
          (if (!ls.debug_p) = true then
            dropAllReferences (ls.passes_run (erase_all f (scan f).to_remove).1)
          else ls.passes_run (erase_all f (scan f).to_remove).1)
          (ls.runJITOnFunction (ls.passes_run (erase_all f (scan f).to_remove).1)).address
          (ls.runJITOnFunction (ls.passes_run (erase_all f (scan f).to_remove).1)).size,
        Event.add_code_resource], ?_, ?_, ?_, ?_, ?_⟩
    · simp [generate_function, hm, hf, hB, hV]
    · intro e he
      constructor
      · refine forall_of_filter_eq_nil ?_ e he
        simp only [List.filter_append, scan_trace_filter_isGcToggle,
          erase_all_snd_filter_isGcToggle]
        by_cases h1 : (ls.jit_dump_code &&& ls.cSimple != 0) = true <;>
          by_cases h3 : (ls.jit_dump_code &&& ls.cOptimized != 0) = true <;>
          by_cases h4 : ls.debug_p = true <;>
          simp [h1, h3, h4, Event.isGcToggle]
      · refine forall_of_filter_eq_nil ?_ e he
        simp only [List.filter_append, scan_trace_filter_isInstall,
          erase_all_snd_filter_isInstall]
        by_cases h1 : (ls.jit_dump_code &&& ls.cSimple != 0) = true <;>
          by_cases h3 : (ls.jit_dump_code &&& ls.cOptimized != 0) = true <;>
          by_cases h4 : ls.debug_p = true <;>
          simp [h1, h3, h4, Event.isInstall]
    · intro e he
      simp only [List.mem_cons, List.mem_singleton, List.not_mem_nil, or_false] at he
      rcases he with he | he <;> rw [he] <;> exact ⟨rfl, rfl, rfl⟩
    · intro h
      simp [generate_function, hm, hf, hb] at h
    · intro mci h
      simp only [generate_function, hm, hf, hb, Bool.false_eq_true, if_false,
        Option.some.injEq] at h
      subst h
      refine ⟨?_, ?_, ?_, ?_, ?_, ?_, ⟨_, rfl⟩⟩
      · intro a ha
        simp [erase_all_snd, ha]
      · simp [cleaned]
      · simp [cleaned]
      · simp [cleaned]
      · simp
      · intro hd
        simp [hd]

/-- C7: a `generate_function` call with the flag set makes no call at all when
it finds cached code or no function; otherwise it makes its calls in this
order: `gc_independent`, a middle part free of GC toggles and of
RuntimeDataHolder calls, `gc_dependent`, and a last part made of
RuntimeDataHolder calls only.  On the abort path the last part is empty; on the
success path the middle part holds the erasures, the verifier run, the
optimizer run, the lowering, `add_code_bytes` and (debug mode off) the IR
release, and the last part is `set_function`, `add_code_resource`. -/
theorem gc_independent_brackets_backend (ls : LLVMState) (c : Compiler) :
    ((c.mci_.isSome = true ∨ c.function_ = none) →
      (generate_function ls c true).trace = []) ∧
    ∀ f, c.mci_ = none → c.function_ = some f →
      ∃ mid post,
        (generate_function ls c true).trace =
          Event.gc_independent :: (mid ++ Event.gc_dependent :: post) ∧
        (∀ e ∈ mid, e.isGcToggle = false ∧ e.isInstall = false) ∧
        (∀ e ∈ post, e.isInstall = true ∧ e.isBackendStep = false ∧ e.isGcToggle = false) ∧
        ((generate_function ls c true).compiler.mci_ = none → post = []) ∧
        (∀ mci, (generate_function ls c true).compiler.mci_ = some mci →
          (∀ a ∈ (scan f).to_remove, Event.eraseFromParent a ∈ mid) ∧
          Event.verifyFunction (cleaned f) ∈ mid ∧
          Event.passes_run (cleaned f) ∈ mid ∧
          Event.runJITOnFunction (ls.passes_run (cleaned f)) mci ∈ mid ∧
          Event.add_code_bytes mci.size ∈ mid ∧
          (ls.debug_p = false → Event.dropAllReferences ∈ mid) ∧
          ∃ f3, post = [Event.set_function f3 mci.address mci.size,
            Event.add_code_resource]) := by
  constructor
  · intro h
    cases hm : c.mci_ with
    | some m => simp [generate_function, hm]
    | none =>
      rcases h with h | h
      · simp [hm] at h
      · simp [generate_function, hm, h]
  · intro f hm hf
    exact flagged_call_brackets ls c f hm hf

/-- C7, at a concrete input: a flagged call on `ex_good`. -/
theorem gc_independent_brackets_backend_witness :
    (generate_function ex_ls ⟨some ex_good, none⟩ true).trace =
      [Event.gc_independent, Event.eraseFromParent 2,
        Event.verifyFunction (cleaned ex_good), Event.passes_run (cleaned ex_good),
        Event.runJITOnFunction (cleaned ex_good) ⟨4096, 32⟩, Event.add_code_bytes 32,
        Event.dropAllReferences, Event.gc_dependent,
        Event.set_function ⟨[]⟩ 4096 32, Event.add_code_resource] ∧
    ∃ mid post,
      (generate_function ex_ls ⟨some ex_good, none⟩ true).trace =
        Event.gc_independent :: (mid ++ Event.gc_dependent :: post) ∧
      (∀ e ∈ mid, e.isGcToggle = false ∧ e.isInstall = false) ∧
      (∀ e ∈ post, e.isInstall = true ∧ e.isBackendStep = false ∧ e.isGcToggle = false) :=
  ⟨by decide,
    ((gc_independent_brackets_backend ex_ls ⟨some ex_good, none⟩).2 ex_good rfl rfl).imp
      fun _ h => h.imp fun _ h2 => ⟨h2.1, h2.2.1, h2.2.2.1⟩⟩

/-! ## The cleaned function -/

theorem jumps_to_of_empty (b bb : BasicBlock) (h : b.empty = true) : b.jumps_to bb = false := by
  have h1 : b.insts = [] := by simpa [BasicBlock.empty] using h
  simp [BasicBlock.jumps_to, h1]

theorem cleaned_eq_contains (f : Function) :
    cleaned f = ⟨f.blocks.filter (fun b =>
      !((f.blocks.filter (fun b => b.empty && pred_empty f b)).map BasicBlock.addr).contains
        b.addr)⟩ := by
  simp [cleaned, erase_all_fst, scan_to_remove]

theorem cleaned_eq_filter (f : Function) (hnd : (f.blocks.map BasicBlock.addr).Nodup) :
    cleaned f = ⟨f.blocks.filter (fun b => !(b.empty && pred_empty f b))⟩ := by
  rw [cleaned_eq_contains]
  congr 1
  apply List.filter_congr
  intro b hb
  congr 1
  rw [Bool.eq_iff_iff]
  simp only [List.contains_eq_any_beq, List.any_eq_true, beq_iff_eq, List.mem_map,
    List.mem_filter]
  constructor
  · rintro ⟨x, ⟨b1, ⟨hb1, hP⟩, hab⟩, hx⟩
    have : b1 = b := List.inj_on_of_nodup_map hnd hb1 hb (by omega)
    rw [← this]; exact hP
  · intro hP
    exact ⟨b.addr, ⟨b, ⟨hb, hP⟩, rfl⟩, rfl⟩

theorem predecessors_cleaned (f : Function) (hnd : (f.blocks.map BasicBlock.addr).Nodup)
    (bb : BasicBlock) : predecessors (cleaned f) bb = predecessors f bb := by
  rw [cleaned_eq_filter f hnd]
  simp only [predecessors, List.filter_filter]
  apply List.filter_congr
  intro b _
  by_cases he : b.empty = true
  · simp [jumps_to_of_empty b bb he]
  · simp [he]

theorem pred_empty_cleaned (f : Function) (hnd : (f.blocks.map BasicBlock.addr).Nodup)
    (bb : BasicBlock) : pred_empty (cleaned f) bb = pred_empty f bb := by
  simp [pred_empty, predecessors_cleaned f hnd]

theorem cleaned_nodup (f : Function) (hnd : (f.blocks.map BasicBlock.addr).Nodup) :
    ((cleaned f).blocks.map BasicBlock.addr).Nodup := by
  rw [cleaned_eq_filter f hnd]
  exact hnd.sublist ((List.filter_sublist _).map _)

theorem cleaned_cleaned (f : Function) (hnd : (f.blocks.map BasicBlock.addr).Nodup) :
    cleaned (cleaned f) = cleaned f := by
  rw [cleaned_eq_filter (cleaned f) (cleaned_nodup f hnd)]
  simp only [pred_empty_cleaned f hnd]
  rw [cleaned_eq_filter f hnd]
  simp [List.filter_filter]

theorem cleaned_no_dead_block (f : Function) (hnd : (f.blocks.map BasicBlock.addr).Nodup) :
    ∀ b ∈ (cleaned f).blocks, ¬(b.empty = true ∧ pred_empty (cleaned f) b = true) := by
  intro b hb
  rw [pred_empty_cleaned f hnd]
  rw [cleaned_eq_filter f hnd] at hb
  have h1 := (List.mem_filter.mp hb).2
  rintro ⟨he, hp⟩
  simp [he, hp] at h1

theorem foldl_scan_trace_mono (f : Function) (bs : List BasicBlock) (s : Scan) :
    ∀ e ∈ s.trace, e ∈ (bs.foldl (scan_step f) s).trace := by
  induction bs generalizing s with
  | nil => intro e he; exact he
  | cons b bs ih =>
    intro e he
    rw [List.foldl_cons]
    apply ih
    unfold scan_step
    split
    · split
      · exact he
      · exact List.mem_append_left _ he
    · split
      · exact List.mem_append_left _ he
      · exact he

theorem foldl_scan_reports_used (f : Function) (bs : List BasicBlock) (s : Scan)
    (b : BasicBlock) (hb : b ∈ bs) (he : b.empty = true) (hp : pred_empty f b = false) :
    Event.outs Message.empty_and_used ∈ (bs.foldl (scan_step f) s).trace := by
  induction bs generalizing s with
  | nil => cases hb
  | cons b1 bs ih =>
    rw [List.foldl_cons]
    rcases List.mem_cons.mp hb with h | h
    · subst h
      apply foldl_scan_trace_mono
      simp [scan_step, he, hp]
    · exact ih _ h

theorem generate_function_trace_scan (ls : LLVMState) (c : Compiler) (indy : Bool)
    (f : Function) (hm : c.mci_ = none) (hf : c.function_ = some f) :
    ∀ e ∈ (scan f).trace, e ∈ (generate_function ls c indy).trace := by
  intro e he
  by_cases hb : ((scan f).Broken || ls.verifyFunction (erase_all f (scan f).to_remove).1) = true
  · simp only [generate_function, hm, hf, hb, if_true, List.mem_append]
    simp [he]
  · simp only [generate_function, hm, hf, hb, Bool.false_eq_true, if_false, List.mem_append]
    simp [he]

theorem generate_function_verify_events (ls : LLVMState) (c : Compiler) (indy : Bool) :
    (generate_function ls c indy).trace.filter Event.isVerify =
      match c.mci_, c.function_ with
      | none, some f => if (scan f).Broken then [] else [Event.verifyFunction (cleaned f)]
      | _, _ => [] := by
  cases hm : c.mci_ with
  | some m => simp [generate_function, hm]
  | none =>
    cases hf : c.function_ with
    | none => simp [generate_function, hm, hf]
    | some f =>
      by_cases hb : ((scan f).Broken || ls.verifyFunction (erase_all f (scan f).to_remove).1) = true
      · simp only [generate_function, hm, hf, hb, if_true, List.filter_append,
          scan_trace_filter_isVerify, erase_all_snd_filter_isVerify]
        cases indy <;> by_cases h1 : (ls.jit_dump_code &&& ls.cSimple != 0) = true <;>
          by_cases h2 : (scan f).Broken = true <;>
          simp [h1, h2, Event.isVerify, cleaned]
      · simp only [generate_function, hm, hf, hb, Bool.false_eq_true, if_false,
          List.filter_append, scan_trace_filter_isVerify, erase_all_snd_filter_isVerify]
        cases indy <;> by_cases h1 : (ls.jit_dump_code &&& ls.cSimple != 0) = true <;>
          by_cases h2 : (scan f).Broken = true <;>
          by_cases h3 : (ls.jit_dump_code &&& ls.cOptimized != 0) = true <;>
          by_cases h4 : ls.debug_p = true <;>
          simp [h1, h2, h3, h4, Event.isVerify, cleaned]

/-- C9: on a built function whose blocks have distinct addresses, the cleaned
function is the original block list filtered, in order, to the blocks that are
not both empty and without predecessor; the verifier is called on nothing but
this cleaned function, and is called on it whenever no block is found broken;
the cleaned function has no empty block without predecessor, and cleaning it
again changes nothing. -/
theorem cleanup_is_exact_filter (ls : LLVMState) (c : Compiler) (indy : Bool) (f : Function)
    (hm : c.mci_ = none) (hf : c.function_ = some f)
    (hnd : (f.blocks.map BasicBlock.addr).Nodup) :
    cleaned f = ⟨f.blocks.filter (fun b => !(b.empty && pred_empty f b))⟩ ∧
    (∀ g, Event.verifyFunction g ∈ (generate_function ls c indy).trace → g = cleaned f) ∧
    ((scan f).Broken = false →
      Event.verifyFunction (cleaned f) ∈ (generate_function ls c indy).trace) ∧
    (∀ b ∈ (cleaned f).blocks, ¬(b.empty = true ∧ pred_empty (cleaned f) b = true)) ∧
    cleaned (cleaned f) = cleaned f := by
  have hv := generate_function_verify_events ls c indy
  simp only [hm, hf] at hv
  refine ⟨cleaned_eq_filter f hnd, ?_, ?_, ?_, cleaned_cleaned f hnd⟩
  · intro g hg
    have hg2 : Event.verifyFunction g ∈
        (generate_function ls c indy).trace.filter Event.isVerify :=
      List.mem_filter.mpr ⟨hg, rfl⟩
    rw [hv] at hg2
    split at hg2
    · cases hg2
    · simpa using hg2
  · intro hB
    have h1 : Event.verifyFunction (cleaned f) ∈
        (generate_function ls c indy).trace.filter Event.isVerify := by
      rw [hv, hB]; simp
    exact (List.mem_filter.mp h1).1
  · exact cleaned_no_dead_block f hnd

/-- C9, at a concrete input: `ex_good` loses its empty block 2 and keeps blocks
1 and 3 in order. -/
theorem cleanup_is_exact_filter_witness :
    (ex_good.blocks.map BasicBlock.addr).Nodup ∧
    cleaned ex_good = ⟨[⟨1, [ex_add, ex_ret]⟩, ⟨3, [ex_ret]⟩]⟩ ∧
    cleaned ex_good = ⟨ex_good.blocks.filter (fun b => !(b.empty && pred_empty ex_good b))⟩ ∧
    (∀ g, Event.verifyFunction g ∈ (generate_function ex_ls ⟨some ex_good, none⟩ false).trace →
      g = cleaned ex_good) :=
  have h := cleanup_is_exact_filter ex_ls ⟨some ex_good, none⟩ false ex_good rfl rfl (by decide)
  ⟨by decide, by decide, h.1, h.2.1⟩

/-! ## Empty blocks at verification -/

/-- C8 fails as stated: in `ex_used` the empty block 2 has block 1 as
predecessor, so clean-up keeps it; the verifier is run on the function with that
block still in it, and when the verifier accepts, the function is optimized and
lowered and `generate_function` returns the non-null address 4096. -/
theorem empty_used_block_is_lowered :
    cleaned ex_used = ex_used ∧
    (∃ b ∈ (cleaned ex_used).blocks, b.empty = true ∧ predecessors (cleaned ex_used) b ≠ []) ∧
    (generate_function ex_ls ⟨some ex_used, none⟩ true).trace =
      [Event.gc_independent, Event.outs Message.empty_and_used,
        Event.verifyFunction ex_used, Event.passes_run ex_used,
        Event.runJITOnFunction ex_used ⟨4096, 32⟩, Event.add_code_bytes 32,
        Event.dropAllReferences, Event.gc_dependent,
        Event.set_function ⟨[]⟩ 4096 32, Event.add_code_resource] ∧
    (generate_function ex_ls ⟨some ex_used, none⟩ true).ret = 4096 ∧
    (generate_function ex_ls ⟨some ex_used, none⟩ true).ret ≠ NULL := by
  decide

/-- C8, amended: on a built function whose blocks have distinct addresses, every
empty block still present after clean-up has at least one predecessor; a
function with an empty block that has a predecessor is reported during
clean-up ("Basic Block is empty and used!"), and when the verifier rejects the
cleaned function `generate_function` returns null, leaves `mci_` null and makes
no optimizer, lowering, accounting or install call. -/
theorem empty_blocks_at_verification (ls : LLVMState) (c : Compiler) (indy : Bool)
    (f : Function) (hm : c.mci_ = none) (hf : c.function_ = some f)
    (hnd : (f.blocks.map BasicBlock.addr).Nodup) :
    (∀ b ∈ (cleaned f).blocks, b.empty = true → predecessors (cleaned f) b ≠ []) ∧
    ((∃ b ∈ f.blocks, b.empty = true ∧ predecessors f b ≠ []) →
      Event.outs Message.empty_and_used ∈ (generate_function ls c indy).trace ∧
      (ls.verifyFunction (cleaned f) = true →
        (generate_function ls c indy).ret = NULL ∧
        (generate_function ls c indy).compiler.mci_ = none ∧
        ∀ e ∈ (generate_function ls c indy).trace, e.isCodegen = false)) := by
  constructor
  · intro b hb he hp
    apply cleaned_no_dead_block f hnd b hb
    exact ⟨he, by simp [pred_empty, hp]⟩
  · rintro ⟨b, hb, he, hp⟩
    refine ⟨?_, ?_⟩
    · apply generate_function_trace_scan ls c indy f hm hf
      apply foldl_scan_reports_used f f.blocks _ b hb he
      cases h : pred_empty f b
      · rfl
      · exfalso
        apply hp
        simpa [pred_empty] using h
    · intro hv
      have hbad : ((scan f).Broken || ls.verifyFunction (erase_all f (scan f).to_remove).1) = true := by
        unfold cleaned at hv
        rw [hv]; simp
      refine ⟨?_, ?_, ?_⟩
      · simp [generate_function, hm, hf, hbad]
      · simp [generate_function, hm, hf, hbad, hm]
      · apply forall_of_filter_eq_nil
        simp only [generate_function, hm, hf, hbad, if_true, List.filter_append,
          scan_trace_filter_isCodegen, erase_all_snd_filter_isCodegen]
        cases indy <;> by_cases h1 : (ls.jit_dump_code &&& ls.cSimple != 0) = true <;>
          by_cases h2 : (scan f).Broken = true <;>
          simp [h1, h2, Event.isCodegen]

/-- C8, amended, at a concrete input: `ex_used` under a verifier that rejects. -/
theorem empty_blocks_at_verification_witness :
    (ex_used.blocks.map BasicBlock.addr).Nodup ∧
    (∃ b ∈ ex_used.blocks, b.empty = true ∧ predecessors ex_used b ≠ []) ∧
    (∀ b ∈ (cleaned ex_used).blocks, b.empty = true → predecessors (cleaned ex_used) b ≠ []) ∧
    Event.outs Message.empty_and_used ∈
      (generate_function ex_ls_strict ⟨some ex_used, none⟩ false).trace ∧
    (generate_function ex_ls_strict ⟨some ex_used, none⟩ false).ret = NULL :=
  have hex : ∃ b ∈ ex_used.blocks, b.empty = true ∧ predecessors ex_used b ≠ [] := by decide
  have h := empty_blocks_at_verification ex_ls_strict ⟨some ex_used, none⟩ false ex_used
    rfl rfl (by decide)
  ⟨by decide, hex, h.1, (h.2 hex).1, ((h.2 hex).2 rfl).1⟩

/-! ## IR release -/

theorem scan_trace_filter_isRelease (f : Function) :
    (scan f).trace.filter Event.isRelease = [] :=
  scan_trace_filter f _ (by intro e h; cases e <;> simp_all [Event.isOutput, Event.isRelease])

theorem erase_all_snd_filter_isRelease (f : Function) (as : List Nat) :
    (erase_all f as).2.filter Event.isRelease = [] :=
  erase_all_snd_filter f as _ (fun _ => rfl)

/-- C10: the IR releases of one `generate_function` call are exactly one
`dropAllReferences` when the call goes through to the lowering with debug mode
off, and none otherwise (debug mode on, abort, no function, cached code); that
one release comes after the verifier run, the optimizer run and the lowering,
no backend step follows it, and `function_` is left at the released body (with
debug mode on, at the optimized body); `compile_builder` never releases. -/
theorem ir_release_on_success (ls : LLVMState) (c : Compiler) (indy : Bool) :
    ((generate_function ls c indy).trace.filter Event.isRelease =
      match c.mci_, c.function_ with
      | none, some f =>
        if (scan f).Broken || ls.verifyFunction (cleaned f) || ls.debug_p then []
        else [Event.dropAllReferences]
      | _, _ => []) ∧
    (∀ f, c.mci_ = none → c.function_ = some f →
      ((scan f).Broken || ls.verifyFunction (cleaned f)) = false →
      (generate_function ls c indy).compiler.function_ =
        some (if ls.debug_p then ls.passes_run (cleaned f)
          else dropAllReferences (ls.passes_run (cleaned f))) ∧
      (ls.debug_p = false →
        ∃ pre post,
          (generate_function ls c indy).trace = pre ++ Event.dropAllReferences :: post ∧
          Event.verifyFunction (cleaned f) ∈ pre ∧
          Event.passes_run (cleaned f) ∈ pre ∧
          Event.runJITOnFunction (ls.passes_run (cleaned f))
            (ls.runJITOnFunction (ls.passes_run (cleaned f))) ∈ pre ∧
          ∀ e ∈ post, e.isBackendStep = false)) ∧
    (∀ (c1 : Compiler) (work : Builder),
      (compile_builder c1 work).2.filter Event.isRelease = []) := by
  refine ⟨?_, ?_, ?_⟩
  · cases hm : c.mci_ with
    | some m => simp [generate_function, hm]
    | none =>
      cases hf : c.function_ with
      | none => simp [generate_function, hm, hf]
      | some f =>
        by_cases hb : ((scan f).Broken || ls.verifyFunction (erase_all f (scan f).to_remove).1) = true
        · simp only [generate_function, hm, hf, hb, if_true, List.filter_append,
            scan_trace_filter_isRelease, erase_all_snd_filter_isRelease, cleaned, Bool.true_or]
          cases indy <;> by_cases h1 : (ls.jit_dump_code &&& ls.cSimple != 0) = true <;>
            by_cases h2 : (scan f).Broken = true <;>
            simp [h1, h2, Event.isRelease]
        · simp only [generate_function, hm, hf, hb, Bool.false_eq_true, if_false,
            List.filter_append, scan_trace_filter_isRelease, erase_all_snd_filter_isRelease,
            cleaned, Bool.false_or]
          cases indy <;> by_cases h1 : (ls.jit_dump_code &&& ls.cSimple != 0) = true <;>
            by_cases h2 : (scan f).Broken = true <;>
            by_cases h3 : (ls.jit_dump_code &&& ls.cOptimized != 0) = true <;>
            by_cases h4 : ls.debug_p = true <;>
            simp [h1, h2, h3, h4, Event.isRelease]
  · intro f hm hf hok
    have hBV : (scan f).Broken = false ∧
        ls.verifyFunction (erase_all f (scan f).to_remove).1 = false := by
      simpa [cleaned] using hok
    obtain ⟨hB, hV⟩ := hBV
    constructor
    · by_cases h4 : ls.debug_p = true <;>
        simp [generate_function, hm, hf, hB, hV, h4, cleaned]
    · intro hd
      refine ⟨(if indy = true then [Event.gc_independent] else []) ++
          (if (ls.jit_dump_code &&& ls.cSimple != 0) = true then
            [Event.outs Message.simple_ir_header, Event.outs_function f] else []) ++
          (scan f).trace ++ (erase_all f (scan f).to_remove).2 ++
          [Event.verifyFunction (erase_all f (scan f).to_remove).1] ++
          [Event.passes_run (erase_all f (scan f).to_remove).1] ++
          (if (ls.jit_dump_code &&& ls.cOptimized != 0) = true then
            [Event.outs Message.optimized_ir_header,
              Event.outs_function (ls.passes_run (erase_all f (scan f).to_remove).1)] else []) ++
          [Event.runJITOnFunction (ls.passes_run (erase_all f (scan f).to_remove).1)
              (ls.runJITOnFunction (ls.passes_run (erase_all f (scan f).to_remove).1)),
            Event.add_code_bytes
              (ls.runJITOnFunction (ls.passes_run (erase_all f (scan f).to_remove).1)).size],
        (if indy = true then [Event.gc_dependent] else []) ++
          [Event.set_function
            (dropAllReferences (ls.passes_run (erase_all f (scan f).to_remove).1))
            (ls.runJITOnFunction (ls.passes_run (erase_all f (scan f).to_remove).1)).address
            (ls.runJITOnFunction (ls.passes_run (erase_all f (scan f).to_remove).1)).size,
          Event.add_code_resource], ?_, ?_, ?_, ?_, ?_⟩
      · simp [generate_function, hm, hf, hB, hV, hd]
      · simp [cleaned]
      · simp [cleaned]
      · simp [cleaned]
      · apply forall_of_filter_eq_nil
        cases indy <;> simp [Event.isBackendStep]
  · intro c1 work
    by_cases hs : (work.generate_body work.setup).2 = true <;>
      simp [compile_builder, hs, Event.isRelease]

/-- C10, at a concrete input: a successful run on `ex_good` with debug mode off
releases once, after the lowering; with debug mode on it does not release. -/
theorem ir_release_on_success_witness :
    (generate_function ex_ls ⟨some ex_good, none⟩ false).trace.filter Event.isRelease =
      [Event.dropAllReferences] ∧
    (generate_function ex_ls_debug ⟨some ex_good, none⟩ false).trace.filter Event.isRelease =
      [] ∧
    (generate_function ex_ls ⟨some ex_good, none⟩ false).compiler.function_ = some ⟨[]⟩ ∧
    ∃ pre post,
      (generate_function ex_ls ⟨some ex_good, none⟩ false).trace =
        pre ++ Event.dropAllReferences :: post ∧
      Event.verifyFunction (cleaned ex_good) ∈ pre ∧
      Event.passes_run (cleaned ex_good) ∈ pre ∧
      Event.runJITOnFunction (ex_ls.passes_run (cleaned ex_good))
        (ex_ls.runJITOnFunction (ex_ls.passes_run (cleaned ex_good))) ∈ pre ∧
      ∀ e ∈ post, e.isBackendStep = false :=
  have h := ir_release_on_success ex_ls ⟨some ex_good, none⟩ false
  have hd := ir_release_on_success ex_ls_debug ⟨some ex_good, none⟩ false
  have h2 := h.2.1 ex_good rfl rfl (by decide)
  ⟨h.1, hd.1, h2.1, h2.2 rfl⟩

end jit
end rubinius
